import Mathlib

/-!
Shallow embedding of `path_to_csv.py` (repository PathToCsv) and proofs about
its specification claims.

Modelling conventions:
* Python exceptions are modelled with `Except PyError`; `PyError` distinguishes
  `FileNotFoundError` and `ValueError` and carries the message string.
* Python string `split`/`replace`/`in` are re-implemented over `List Char` by
  fuel-based structural recursion (`splitGo`, `replaceGo`) so that all string
  processing evaluates inside the kernel; the fuel is the string length, which
  always suffices since every step consumes at least one character.
* Python `dict[str, str]` records (insertion ordered) are modelled as
  association lists `List (String × FieldValue)`; dict assignment is `dictSet`,
  which replaces the value in place (keeping the original position, as CPython
  dicts do) or appends a fresh key at the end.
* Python `float` arithmetic is modelled by exact rational arithmetic over `ℚ`
  (the idealized arithmetic that the code's docstring and the spec describe);
  `str()` of a float whose value is `k / 100` is modelled by `formatHundredths`.
* The Windows shell (win32com), the filesystem and `epub_meta` are modelled as
  an explicit environment `Env` of query functions, following the spec's
  "injected capability" design note.  The filesystem tree walked by `os.walk`
  is modelled by the inductive `FSTree`.
-/

set_option autoImplicit false
set_option maxRecDepth 4096

namespace PathToCsv

/-- Python exception values relevant to this program. -/
inductive PyError where
  | fileNotFound (msg : String)
  | valueError (msg : String)
deriving DecidableEq, Repr

instance {ε α : Type} [DecidableEq ε] [DecidableEq α] : DecidableEq (Except ε α) := fun
  | .ok a, .ok b =>
    if h : a = b then .isTrue (by rw [h])
    else .isFalse (fun c => h (by cases c; rfl))
  | .error a, .error b =>
    if h : a = b then .isTrue (by rw [h])
    else .isFalse (fun c => h (by cases c; rfl))
  | .ok _, .error _ => .isFalse (fun c => Except.noConfusion c)
  | .error _, .ok _ => .isFalse (fun c => Except.noConfusion c)

/-- A value stored in a file record: a plain string, or a list of strings
(the `epub_chapters` field holds a list of chapter titles). -/
inductive FieldValue where
  | str (s : String)
  | list (l : List String)
deriving DecidableEq, Repr

/-- A file record: a Python `dict[str, str]` in insertion order. -/
abbrev Record := List (String × FieldValue)

/-- Fuel-based worker for Python `str.split(sep)` (nonempty `sep`): split at
every non-overlapping occurrence of `sep`, left to right, keeping empty
parts.  `cur` holds the current part, reversed. -/
def splitGo (sep : List Char) : ℕ → List Char → List Char → List (List Char)
  | 0, s, cur => [cur.reverse ++ s]
  | _ + 1, [], cur => [cur.reverse]
  | fuel + 1, c :: rest, cur =>
    if sep.isPrefixOf (c :: rest) then
      cur.reverse :: splitGo sep fuel ((c :: rest).drop sep.length) []
    else splitGo sep fuel rest (c :: cur)

/-- Python `s.split(sep)` for a nonempty separator. -/
def pySplit (s sep : String) : List String :=
  (splitGo sep.data s.data.length s.data []).map fun l => ⟨l⟩

/-- Fuel-based worker for Python `str.replace(pat, rep)` (nonempty `pat`):
replace every non-overlapping occurrence, left to right. -/
def replaceGo (pat rep : List Char) : ℕ → List Char → List Char
  | 0, s => s
  | _ + 1, [] => []
  | fuel + 1, c :: rest =>
    if pat.isPrefixOf (c :: rest) then
      rep ++ replaceGo pat rep fuel ((c :: rest).drop pat.length)
    else c :: replaceGo pat rep fuel rest

/-- Python `s.replace(pat, rep)` for a nonempty pattern. -/
def pyReplace (s pat rep : String) : String :=
  ⟨replaceGo pat.data rep.data s.data.length s.data⟩

/-- Python's `sub in s` substring test, for nonempty `sub`. -/
def strContains (s sub : String) : Bool :=
  2 ≤ (pySplit s sub).length

/-- `os.path.join` with an abstract separator. -/
def joinPath (a b : String) : String := a ++ "/" ++ b

/-- `os.path.abspath`: prepend the working directory to a relative path. -/
def abspath (cwd p : String) : String :=
  match p.data with
  | '/' :: _ => p
  | _ => joinPath cwd p

/-- `os.path.splitext(name)[1]`: the extension starts at the last dot, unless
every character before that dot is itself a dot (so `".bashrc"` has no
extension). -/
def splitext_ext (name : String) : String :=
  let cs := name.data
  match cs.reverse.findIdx? (fun c => c = '.') with
  | none => ""
  | some j =>
    let i := cs.length - 1 - j
    if (cs.take i).all (fun c => c = '.') then "" else ⟨cs.drop i⟩

/-- Numeric value of a digit string (most significant digit first). -/
def digitsToNat (s : String) : ℕ :=
  s.data.foldl (fun n c => 10 * n + (c.toNat - 48)) 0

/-- All characters of `s` are decimal digits. -/
def isDigits (s : String) : Bool :=
  s.data.all (fun c => c.isDigit)

/-- Python `float(s)` on plain nonnegative decimal numerals (`"312"`,
`"1.90"`, `"1."`, `".5"`), as an exact rational.  Numerals outside this
form raise `ValueError`, modelled as `none`. -/
def parseDecimalString (s : String) : Option ℚ :=
  match pySplit s "." with
  | [a] => if isDigits a && a != "" then some (digitsToNat a) else none
  | [a, b] =>
    if isDigits a && isDigits b && (a != "" || b != "") then
      some ((digitsToNat a : ℚ) + (digitsToNat b : ℚ) / (10 : ℚ) ^ b.length)
    else none
  | _ => none

/-- The `conversion_dict` of `transform_to_mb`: ratio of a unit to megabytes. -/
def conversion_dict (unit : String) : Option ℚ :=
  if unit = "KB" then some (1 / 1024)
  else if unit = "Bytes" then some (1 / 1024 ^ 2)
  else if unit = "MB" then some 1
  else if unit = "GB" then some 1024
  else if unit = "TB" then some (1024 ^ 2)
  else none

/-- `str(k / 100.0)` for a nonnegative numerator `k`, as Python prints it: an
integer part always followed by a fractional part (`"0.0"`, `"0.2"`,
`"3.14"`), with the dot already replaced by the comma that `transform_to_mb`
restores. -/
def formatHundredths (k : ℕ) : String :=
  if k % 100 = 0 then toString (k / 100) ++ ",0"
  else if k % 10 = 0 then toString (k / 100) ++ "," ++ toString (k / 10 % 10)
  else if k % 100 < 10 then toString (k / 100) ++ ",0" ++ toString (k % 100)
  else toString (k / 100) ++ "," ++ toString (k % 100)

/-- The `ValueError` message of unpacking a list of `n` elements into two
variables. -/
def unpackMsg (n : ℕ) : String :=
  if n < 2 then "not enough values to unpack (expected 2, got " ++ toString n ++ ")"
  else "too many values to unpack (expected 2)"

/-- `transform_to_mb` from `path_to_csv.py`, with float arithmetic modelled
exactly over `ℚ`: `value, unit = size.split(" ")` (a `ValueError` when the
split does not have exactly two parts); pass-through for unrecognized units;
otherwise parse the comma-decimal value, multiply by the unit ratio, round up
to two decimals, format back with a comma and append `" MB"`. -/
def transform_to_mb (size : String) : Except PyError String :=
  match pySplit size " " with
  | [value, unit] =>
    match conversion_dict unit with
    | some ratio =>
      match parseDecimalString (pyReplace value "," ".") with
      | some number_value =>
        let in_mb := number_value * ratio
        let rounded : ℤ := ⌈in_mb * 100⌉
        Except.ok (formatHundredths rounded.toNat ++ " MB")
      | none => Except.error (PyError.valueError "could not convert string to float")
    | none => Except.ok size
  | [] => Except.error (PyError.valueError (unpackMsg 0))
  | [_] => Except.error (PyError.valueError (unpackMsg 1))
  | _ :: _ :: _ :: _ => Except.error (PyError.valueError (unpackMsg 3))

/-! ## The directory walker -/

/-- A filesystem tree: named files and named directories with an ordered list
of children (the order `os.listdir`/`os.walk` enumerate them in). -/
inductive FSTree where
  | file (name : String)
  | dir (name : String) (children : List FSTree)

mutual

/-- The paths `go_recursive` yields from the `os.walk` tuples: for every
visited directory, the joined paths of its subdirectories, in walk order
(all subdirectory names of the current tuple, then the recursion into each
subdirectory in turn).  `walkDirPaths t p` assumes the tree `t` sits at
path `p`; `os.walk` on a file path yields nothing. -/
def walkDirPaths : FSTree → String → List String
  | .file _, _ => []
  | .dir _ children, p =>
    children.filterMap (fun c =>
      match c with
      | .dir n _ => some (joinPath p n)
      | .file _ => none)
    ++ walkInto children p

/-- Worker of `walkDirPaths`: the recursion of `os.walk` into each
subdirectory of the current directory, in listing order. -/
def walkInto : List FSTree → String → List String
  | [], _ => []
  | .file _ :: rest, p => walkInto rest p
  | .dir n cs :: rest, p => walkDirPaths (.dir n cs) (joinPath p n) ++ walkInto rest p

end

/-- `go_recursive` from `path_to_csv.py`: absolutize the crawl path, yield it
first, then yield every subdirectory path produced by `os.walk`.  The tree
`tree` is the directory tree located at `crawl_path`; `cwd` is the working
directory used by `os.path.abspath`. -/
def go_recursive (cwd crawl_path : String) (tree : FSTree) : List String :=
  let crawl_abs := abspath cwd crawl_path
  crawl_abs :: walkDirPaths tree crawl_abs

/-! ## The information extractor -/

/-- The mutable attributes of `InformationExtractor`. -/
structure ExtractorState where
  n_files : ℕ
  n_dirs : ℕ
  failed_ebooks : List String
deriving DecidableEq, Repr

/-- `InformationExtractor.__init__`. -/
def ExtractorState.init : ExtractorState := ⟨0, 0, []⟩

/-- Value of one key of the mapping returned by `epub_meta.get_epub_metadata`:
either a plain field value, or the `toc` list, kept as the list of its
entries' `"title"` values. -/
inductive EpubVal where
  | plain (v : FieldValue)
  | toc (titles : List String)
deriving DecidableEq, Repr

/-- Python truthiness of an epub metadata value (empty string and empty list
are falsy). -/
def truthy : EpubVal → Bool
  | .plain (.str s) => s != ""
  | .plain (.list l) => !l.isEmpty
  | .toc l => !l.isEmpty

/-- The `"title"` entries of a `toc` value (`[entry["title"] for entry in v]`). -/
def tocTitles : EpubVal → List String
  | .toc l => l
  | .plain (.str _) => []
  | .plain (.list l) => l

/-- The raw value stored for a non-`"toc"` metadata key. -/
def epubStoredVal : EpubVal → FieldValue
  | .plain v => v
  | .toc l => .list l

/-- The external collaborators of the extractor, injected as query functions
(spec §9: shell and filesystem abstracted as capabilities):
`pathExists`/`isDir`/`listdir` for `os.path`/`os.listdir`;
`colName d n` for `folder.GetDetailsOf(None, n)` in directory `d`;
`detail d f n` for `folder.GetDetailsOf(item_f, n)` (`""` means empty);
`epubRead` for `epub_meta.get_epub_metadata` (error = any raised exception). -/
structure Env where
  pathExists : String → Bool
  isDir : String → Bool
  listdir : String → List String
  colName : String → ℕ → String
  detail : String → String → ℕ → String
  epubRead : String → Except String (List (String × EpubVal))

/-- The keys of a record, in insertion order. -/
def keys (d : Record) : List String := d.map Prod.fst

/-- CPython dict read `d.get(k)`: the value at the first (for valid dicts,
only) occurrence of `k`. -/
def dictGet : Record → String → Option FieldValue
  | [], _ => none
  | kv :: rest, k => if kv.1 = k then some kv.2 else dictGet rest k

/-- CPython dict assignment `d[k] = v` on an insertion-ordered association
list: replace the value at `k` keeping its position, else append. -/
def dictSet (d : Record) (k : String) (v : FieldValue) : Record :=
  if d.any (fun kv => decide (kv.1 = k)) then
    d.map (fun kv => if kv.1 = k then (k, v) else kv)
  else d ++ [(k, v)]

/-- The hard-coded `skip_set` of column ids of `get_columns_to_parse`. -/
def skip_set : List ℕ :=
  [37, 38, 39, 40, 41, 59, 170, 171, 205, 206, 207, 218, 296,
   57, 165, 169, 190, 191, 192, 196, 254]

/-- `InformationExtractor.get_columns_to_parse`: the (id, display name) pairs
for every column id `0..320` outside `skip_set`, in ascending id order (the
iteration order of the CPython set of small ints). -/
def get_columns_to_parse (colName : ℕ → String) : List (ℕ × String) :=
  ((List.range 321).filter (fun n => decide (n ∉ skip_set))).map (fun n => (n, colName n))

/-- `InformationExtractor.extract_general_information`: for every column with
a truthy display value, store it in the record under the column display name;
the value of column 1 ("Size") is passed through `transform_to_mb` first, and
a `ValueError` raised there propagates.  `detail` is
`folder.GetDetailsOf(item, ·)` for the current file. -/
def extract_general_information (detail : ℕ → String) (this_file : Record) :
    List (ℕ × String) → Except PyError Record
  | [] => .ok this_file
  | c :: columns =>
    let colval := detail c.1
    if colval = "" then extract_general_information detail this_file columns
    else if c.1 = 1 then
      match transform_to_mb colval with
      | .ok v => extract_general_information detail (dictSet this_file c.2 (.str v)) columns
      | .error e => .error e
    else extract_general_information detail (dictSet this_file c.2 (.str colval)) columns

/-- `InformationExtractor.extract_epub_information`: read the epub metadata;
on success merge every truthy key into the record (`"toc"` becomes the list of
chapter titles under `"epub_chapters"`; any other key is prefixed with
`"epub_"` unless `"epub" in pub_key`); on failure swallow the error and
append the file path to `failed_ebooks`. -/
def extract_epub_information
    (epubRead : String → Except String (List (String × EpubVal)))
    (file_path : String) (this_file : Record) (st : ExtractorState) :
    Record × ExtractorState :=
  match epubRead file_path with
  | .ok pub_meta_data =>
    (pub_meta_data.foldl (fun acc kv =>
      if truthy kv.2 then
        if kv.1 = "toc" then dictSet acc "epub_chapters" (.list (tocTitles kv.2))
        else
          dictSet acc (if strContains kv.1 "epub" then kv.1 else "epub_" ++ kv.1)
            (epubStoredVal kv.2)
      else acc) this_file, st)
  | .error _ =>
    (this_file, { st with failed_ebooks := st.failed_ebooks ++ [file_path] })

/-- The record a file starts with: `{"Pfad": item.Path}`. -/
def pfadRecord (p : String) : Record := [("Pfad", FieldValue.str p)]

/-- The loop body of `get_information` over `os.listdir(dir_path)`: skip
directories, count files, build each file's record (shell columns, then epub
metadata when the extension contains `"epub"`), and collect the records.
A `ValueError` from `extract_general_information` propagates, leaving the
counters as they were at that point. -/
def process_files (env : Env) (dir_path : String) (columns : List (ℕ × String)) :
    List String → List Record → ExtractorState →
    ExtractorState × Except PyError (List Record)
  | [], acc, st => (st, .ok acc)
  | file_name :: rest, acc, st =>
    if env.isDir (joinPath dir_path file_name) then
      process_files env dir_path columns rest acc st
    else
      let st1 := { st with n_files := st.n_files + 1 }
      match extract_general_information (env.detail dir_path file_name)
          (pfadRecord (joinPath dir_path file_name)) columns with
      | .error e => (st1, .error e)
      | .ok this_file =>
        let rs :=
          if strContains (splitext_ext file_name) "epub" then
            extract_epub_information env.epubRead (joinPath dir_path file_name)
              this_file st1
          else (this_file, st1)
        process_files env dir_path columns rest (acc ++ [rs.1]) rs.2

/-- `InformationExtractor.get_information`: raise `FileNotFoundError` when the
path does not exist or is not a directory (before any other work); otherwise
count the directory, compute the columns and process every direct child. -/
def get_information (env : Env) (st : ExtractorState) (dir_path : String) :
    ExtractorState × Except PyError (List Record) :=
  if env.pathExists dir_path = false then
    (st, .error (.fileNotFound "Could not find the given directory!"))
  else if env.isDir dir_path = false then
    (st, .error (.fileNotFound "Path has to be for a directory!"))
  else
    let st1 := { st with n_dirs := st.n_dirs + 1 }
    let columns := get_columns_to_parse (env.colName dir_path)
    process_files env dir_path columns (env.listdir dir_path) [] st1

/-! ## Field names and the CSV writer -/

/-- The loop body of `get_field_names`: append a key unless already present
(the Python code keeps a set mirror of the list purely for lookup speed;
membership in the list is the same test). -/
def insertName (field_names : List String) (k : String) : List String :=
  if k ∈ field_names then field_names else field_names ++ [k]

/-- `get_field_names` from `path_to_csv.py`: the header list, seeded with
`"Pfad"`, every record's keys appended in first-occurrence order. -/
def get_field_names (all_files : List Record) : List String :=
  all_files.foldl
    (fun field_names file_entry =>
      file_entry.foldl (fun fns kv => insertName fns kv.1) field_names)
    ["Pfad"]

/-- Python `str(x)` of a cell value; a list prints as `['a', 'b']`. -/
def renderValue : FieldValue → String
  | .str s => s
  | .list l =>
    let q := String.singleton (Char.ofNat 39)
    "[" ++ String.intercalate ", " (l.map (fun s => q ++ s ++ q)) ++ "]"

/-- One CSV cell: a missing key is written as the empty cell (`csv.DictWriter`
with default `restval=None`). -/
def cellRender (v : Option FieldValue) : String :=
  match v with
  | none => ""
  | some v => renderValue v

/-- `csv.DictWriter._dict_to_list`: reject keys outside `fieldnames`
(`extrasaction="raise"`, the default), else produce the row of cells in
`fieldnames` order. -/
def dict_to_list (field_names : List String) (rowdict : Record) :
    Except PyError (List String) :=
  if rowdict.any (fun kv => decide (kv.1 ∉ field_names)) then
    .error (.valueError "dict contains fields not in fieldnames")
  else .ok (field_names.map (fun f => cellRender (dictGet rowdict f)))

/-- The `writer.writerow(data)` loop of `write_csv`. -/
def writeRows (field_names : List String) :
    List Record → Except PyError (List (List String))
  | [] => .ok []
  | r :: rs =>
    match dict_to_list field_names r with
    | .error e => .error e
    | .ok row =>
      match writeRows field_names rs with
      | .error e => .error e
      | .ok rows => .ok (row :: rows)

/-- `write_csv` from `path_to_csv.py`, modelled at the row level: the rows
written to the file — the header row (`writer.writeheader()` writes
`field_names` itself), then one row per record in order. -/
def write_csv (all_files : List Record) (field_names : List String) :
    Except PyError (List (List String)) :=
  match writeRows field_names all_files with
  | .error e => .error e
  | .ok rows => .ok (field_names :: rows)

end PathToCsv

namespace PathToCsv

/-! ## Specification-side definitions -/

/-- Remove duplicates keeping first occurrences, in order. -/
def dedupFirst : List String → List String
  | [] => []
  | x :: xs => x :: dedupFirst (xs.filter (fun y => decide (y ≠ x)))
termination_by l => l.length
decreasing_by
  simp only [List.length_cons]
  exact Nat.lt_succ_of_le (List.length_filter_le _ _)

/-- The field-name collector as the spec words it: scan every record in
arrival order, keys in record order, appending each previously-unseen name,
seeded with `"Pfad"` pre-inserted. -/
def collect_field_names (all_files : List Record) : List String :=
  dedupFirst ("Pfad" :: all_files.flatMap (fun r => r.map Prod.fst))

/-! ## Lemmas about `dedupFirst` and `get_field_names` -/

theorem dedupFirst_nil : dedupFirst [] = [] := by
  simp [dedupFirst]

theorem dedupFirst_cons (x : String) (xs : List String) :
    dedupFirst (x :: xs) = x :: dedupFirst (xs.filter (fun y => decide (y ≠ x))) := by
  simp [dedupFirst]

theorem mem_dedupFirst (l : List String) (a : String) :
    a ∈ dedupFirst l ↔ a ∈ l := by
  induction l using dedupFirst.induct with
  | case1 => simp [dedupFirst]
  | case2 x xs ih =>
    rw [dedupFirst_cons]
    simp only [List.mem_cons, ih, List.mem_filter, decide_eq_true_eq]
    constructor
    · rintro (rfl | ⟨h, _⟩)
      · exact Or.inl rfl
      · exact Or.inr h
    · rintro (rfl | h)
      · exact Or.inl rfl
      · by_cases hx : a = x
        · exact Or.inl hx
        · exact Or.inr ⟨h, hx⟩

theorem nodup_dedupFirst (l : List String) : (dedupFirst l).Nodup := by
  induction l using dedupFirst.induct with
  | case1 => simp [dedupFirst]
  | case2 x xs ih =>
    rw [dedupFirst_cons]
    refine List.nodup_cons.2 ⟨fun hx => ?_, ih⟩
    rw [mem_dedupFirst] at hx
    simp [List.mem_filter] at hx

theorem foldl_insertName (l acc : List String) :
    l.foldl insertName acc
      = acc ++ dedupFirst (l.filter (fun k => decide (k ∉ acc))) := by
  induction l generalizing acc with
  | nil => simp [dedupFirst]
  | cons k l ih =>
    rw [List.foldl_cons, List.filter_cons]
    by_cases h : k ∈ acc
    · rw [insertName, if_pos h]
      simp only [h, not_true_eq_false]
      rw [if_neg (by simp)]
      exact ih acc
    · rw [insertName, if_neg h]
      simp only [h, not_false_eq_true]
      rw [if_pos (by simp)]
      rw [ih (acc ++ [k]), dedupFirst_cons, List.filter_filter, List.append_assoc,
        List.singleton_append]
      congr 3
      apply List.filter_congr
      intro a _
      simp only [List.mem_append, List.mem_singleton, not_or, Bool.and_comm]
      simp [and_comm]

end PathToCsv

namespace PathToCsv

theorem foldl_insertName_flat (all_files : List Record) (acc : List String) :
    all_files.foldl
        (fun fns r => r.foldl (fun f kv => insertName f kv.1) fns) acc
      = (all_files.flatMap (fun r => r.map Prod.fst)).foldl insertName acc := by
  induction all_files generalizing acc with
  | nil => simp
  | cons r rest ih =>
    rw [List.foldl_cons, List.flatMap_cons, List.foldl_append, ih, List.foldl_map]

theorem get_field_names_eq_collect (all_files : List Record) :
    get_field_names all_files = collect_field_names all_files := by
  rw [get_field_names, collect_field_names, foldl_insertName_flat, foldl_insertName,
    dedupFirst_cons]
  simp only [List.singleton_append, List.cons.injEq, true_and]
  congr 1
  apply List.filter_congr
  intro a _
  simp

/-- C2: `get_field_names` returns an ordered field-name list: it equals the
spec's collector (`"Pfad"` seeded first, then every key in first-occurrence
order), `"Pfad"` is the first element, there are no duplicates, every key of
every record appears, and on records with key sets `{a, b, c}` and
`{a, affe}` it returns exactly `[Pfad, a, b, c, affe]`. -/
theorem get_field_names_spec (all_files : List Record) :
    get_field_names all_files = collect_field_names all_files
    ∧ (get_field_names all_files).head? = some "Pfad"
    ∧ (get_field_names all_files).Nodup
    ∧ (∀ r ∈ all_files, ∀ kv ∈ r, kv.1 ∈ get_field_names all_files)
    ∧ get_field_names
        [[("a", .str "1"), ("b", .str "2"), ("c", .str "3")],
         [("a", .str "1"), ("affe", .str "4")]]
        = ["Pfad", "a", "b", "c", "affe"] := by
  refine ⟨get_field_names_eq_collect all_files, ?_, ?_, ?_, by rfl⟩
  · rw [get_field_names_eq_collect, collect_field_names, dedupFirst_cons]
    rfl
  · rw [get_field_names_eq_collect]
    exact nodup_dedupFirst _
  · intro r hr kv hkv
    rw [get_field_names_eq_collect, collect_field_names, mem_dedupFirst]
    refine List.mem_cons_of_mem _ (List.mem_flatMap.2 ⟨r, hr, ?_⟩)
    exact List.mem_map.2 ⟨kv, hkv, rfl⟩

/-- Witness for C2 at concrete records: the key `"affe"` of the second record
is in the collected field names. -/
theorem get_field_names_spec_witness :
    "affe" ∈ get_field_names
      [[("a", .str "1"), ("b", .str "2"), ("c", .str "3")],
       [("a", .str "1"), ("affe", .str "4")]] :=
  (get_field_names_spec _).2.2.2.1
    [("a", .str "1"), ("affe", .str "4")] (by simp)
    ("affe", .str "4") (by simp)

end PathToCsv

namespace PathToCsv

/-- C1 (intended, exact-arithmetic semantics): under the claim's exact
rounding rule — ceiling of the parsed number times the unit ratio, at two
decimals — the four quoted examples hold, and so does the identity-style
value `"0,07 MB"`.  The Python code computes the product in IEEE-754 double
arithmetic, where `0.07 * 100 == 7.000000000000001`, so at the input
`"0,07 MB"` the real code returns `"0,08 MB"` instead of the `"0,07 MB"`
required by the claim's exact ceiling rule. -/
theorem transform_to_mb_exact_examples :
    transform_to_mb "0,07 MB" = Except.ok "0,07 MB"
    ∧ transform_to_mb "1,90 KB" = Except.ok "0,01 MB"
    ∧ transform_to_mb "2,5 TB" = Except.ok "2621440,0 MB"
    ∧ transform_to_mb "3292429 Bytes" = Except.ok "3,14 MB"
    ∧ transform_to_mb "156 PB" = Except.ok "156 PB"
    ∧ (∀ s value unit, pySplit s " " = [value, unit] →
        conversion_dict unit = none → transform_to_mb s = Except.ok s)
    ∧ conversion_dict "KB" = some (1 / 1024)
    ∧ conversion_dict "Bytes" = some (1 / 1048576)
    ∧ conversion_dict "MB" = some 1
    ∧ conversion_dict "GB" = some 1024
    ∧ conversion_dict "TB" = some 1048576
    ∧ (∀ u, conversion_dict u ≠ none → u ∈ ["KB", "Bytes", "MB", "GB", "TB"]) := by
  refine ⟨by with_unfolding_all rfl, by with_unfolding_all rfl,
    by with_unfolding_all rfl, by with_unfolding_all rfl,
    by with_unfolding_all rfl, ?_, by with_unfolding_all rfl,
    by with_unfolding_all rfl, by with_unfolding_all rfl,
    by with_unfolding_all rfl, by with_unfolding_all rfl, ?_⟩
  · intro s value unit hsplit hnone
    rw [transform_to_mb.eq_def, hsplit]
    simp only []
    rw [hnone]
  · intro u hu
    rw [conversion_dict] at hu
    split_ifs at hu with h1 h2 h3 h4 h5
    · simp [h1]
    · simp [h2]
    · simp [h3]
    · simp [h4]
    · simp [h5]
    · exact absurd rfl hu

theorem unpackMsg_of_two_le (n : ℕ) (h : 2 ≤ n) :
    unpackMsg n = "too many values to unpack (expected 2)" := by
  rw [unpackMsg, if_neg (by omega)]

/-- C10: `transform_to_mb` is not total: whenever the input does not split on
`" "` into exactly two parts, the two-element unpacking raises `ValueError`
(so the unrecognized-unit pass-through only applies to two-token strings);
in particular at `"Unknown"`, `"156PB"` and `"1 234 KB"`. -/
theorem transform_to_mb_unpack_spec (s : String)
    (h : (pySplit s " ").length ≠ 2) :
    transform_to_mb s
        = Except.error (.valueError (unpackMsg (pySplit s " ").length))
    ∧ transform_to_mb "Unknown" = Except.error (.valueError (unpackMsg 1))
    ∧ transform_to_mb "156PB" = Except.error (.valueError (unpackMsg 1))
    ∧ transform_to_mb "1 234 KB" = Except.error (.valueError (unpackMsg 3)) := by
  refine ⟨?_, by rfl, by rfl, by rfl⟩
  rw [transform_to_mb.eq_def]
  rcases hs : pySplit s " " with _ | ⟨a, _ | ⟨b, _ | ⟨c, t⟩⟩⟩
  · rfl
  · rfl
  · exact absurd (by rw [hs]; rfl) h
  · simp only [List.length_cons]
    rw [unpackMsg_of_two_le _ (by omega), unpackMsg_of_two_le _ (by omega)]

/-- Witness for C10 at `"Unknown"`, whose split has one part. -/
theorem transform_to_mb_unpack_spec_witness :
    transform_to_mb "Unknown"
      = Except.error (.valueError (unpackMsg (pySplit "Unknown" " ").length)) :=
  (transform_to_mb_unpack_spec "Unknown" (by decide)).1

end PathToCsv

namespace PathToCsv

mutual

/-- Specification-side: the paths of all descendant directories of a tree
sitting at path `p`, in pre-order (each directory child's path, then its own
descendants, then the later siblings). -/
def descendantDirPaths : FSTree → String → List String
  | .file _, _ => []
  | .dir _ children, p => descendantsOf children p

/-- Worker of `descendantDirPaths` over a list of children. -/
def descendantsOf : List FSTree → String → List String
  | [], _ => []
  | .file _ :: rest, p => descendantsOf rest p
  | .dir n cs :: rest, p =>
    joinPath p n :: (descendantDirPaths (.dir n cs) (joinPath p n) ++ descendantsOf rest p)

end

mutual

theorem mem_walkDirPaths_iff (t : FSTree) (p q : String) :
    q ∈ walkDirPaths t p ↔ q ∈ descendantDirPaths t p := by
  match t with
  | .file _ => rfl
  | .dir m children =>
    rw [walkDirPaths, descendantDirPaths]
    rw [List.mem_append]
    exact mem_walkInto_iff children p q

theorem mem_walkInto_iff (l : List FSTree) (p q : String) :
    (q ∈ l.filterMap (fun c =>
        match c with
        | .dir n _ => some (joinPath p n)
        | .file _ => none)
      ∨ q ∈ walkInto l p) ↔ q ∈ descendantsOf l p := by
  match l with
  | [] => simp [walkInto, descendantsOf]
  | .file s :: rest =>
    rw [walkInto, descendantsOf, List.filterMap_cons]
    exact mem_walkInto_iff rest p q
  | .dir n cs :: rest =>
    rw [walkInto, descendantsOf, List.filterMap_cons]
    simp only [List.mem_cons, List.mem_append]
    rw [mem_walkDirPaths_iff (.dir n cs) (joinPath p n) q]
    have h := mem_walkInto_iff rest p q
    tauto

end

end PathToCsv

namespace PathToCsv

/-- The example tree of the claim: root `R` with children `A` and `B`, where
`B` contains `C` (plus two plain files that must not be yielded). -/
def exampleTree : FSTree :=
  .dir "R" [.dir "A" [], .dir "B" [.dir "C" [], .file "f.txt"], .file "g.txt"]

/-- C5: `go_recursive` yields a finite sequence of absolute directory paths:
the absolutized root first, then exactly the descendant directories of the
root (no file paths); on the example tree `R ⊃ {A, B ⊃ {C}}` it yields
exactly `R, A, B, C`. -/
theorem go_recursive_spec (cwd crawl_path : String) (tree : FSTree) :
    (go_recursive cwd crawl_path tree).head? = some (abspath cwd crawl_path)
    ∧ (∀ q, q ∈ go_recursive cwd crawl_path tree ↔
        (q = abspath cwd crawl_path
          ∨ q ∈ descendantDirPaths tree (abspath cwd crawl_path)))
    ∧ go_recursive "/c" "R" exampleTree
        = ["/c/R", "/c/R/A", "/c/R/B", "/c/R/B/C"] := by
  refine ⟨rfl, fun q => ?_, by rfl⟩
  rw [go_recursive]
  simp only [List.mem_cons]
  rw [mem_walkDirPaths_iff]

end PathToCsv

namespace PathToCsv

/-! ## Lemmas about records -/

theorem dictGet_append_of_none (l1 l2 : Record) (k : String)
    (h : dictGet l1 k = none) : dictGet (l1 ++ l2) k = dictGet l2 k := by
  induction l1 with
  | nil => rfl
  | cons kv rest ih =>
    rw [dictGet] at h
    rw [List.cons_append, dictGet]
    by_cases hk : kv.1 = k
    · rw [if_pos hk] at h; exact absurd h (by simp)
    · rw [if_neg hk] at h ⊢; exact ih h

theorem dictGet_append_of_some (l1 l2 : Record) (k : String) (v : FieldValue)
    (h : dictGet l1 k = some v) : dictGet (l1 ++ l2) k = some v := by
  induction l1 with
  | nil => exact absurd h (by simp [dictGet])
  | cons kv rest ih =>
    rw [dictGet] at h
    rw [List.cons_append, dictGet]
    by_cases hk : kv.1 = k
    · rwa [if_pos hk] at h ⊢
    · rw [if_neg hk] at h ⊢; exact ih h

theorem dictGet_eq_none_of_any_false (d : Record) (k : String)
    (h : d.any (fun kv => decide (kv.1 = k)) = false) : dictGet d k = none := by
  induction d with
  | nil => rfl
  | cons kv rest ih =>
    rw [List.any_cons, Bool.or_eq_false_iff] at h
    rw [dictGet, if_neg (by simpa using h.1)]
    exact ih h.2

theorem bool_eq_false {b : Bool} (h : ¬b = true) : b = false := by
  cases b
  · rfl
  · exact absurd rfl h

theorem dictGet_map_set_self (d : Record) (k : String) (v : FieldValue) :
    dictGet (d.map (fun kv => if kv.1 = k then (k, v) else kv)) k
      = if d.any (fun kv => decide (kv.1 = k)) then some v else none := by
  induction d with
  | nil => rfl
  | cons kv rest ih =>
    rw [List.map_cons, List.any_cons]
    by_cases hk : kv.1 = k
    · rw [if_pos hk, dictGet, if_pos rfl, decide_eq_true hk, Bool.true_or, if_pos rfl]
    · rw [if_neg hk, dictGet, if_neg hk, ih, decide_eq_false hk, Bool.false_or]

theorem dictGet_dictSet_self (d : Record) (k : String) (v : FieldValue) :
    dictGet (dictSet d k v) k = some v := by
  rw [dictSet]
  by_cases h : d.any (fun kv => decide (kv.1 = k)) = true
  · rw [if_pos h, dictGet_map_set_self, if_pos h]
  · rw [if_neg h]
    rw [dictGet_append_of_none _ _ _
      (dictGet_eq_none_of_any_false d k (bool_eq_false h))]
    rw [dictGet, if_pos rfl]

theorem dictGet_map_set_ne (d : Record) (k k' : String) (v : FieldValue)
    (h : k' ≠ k) :
    dictGet (d.map (fun kv => if kv.1 = k then (k, v) else kv)) k'
      = dictGet d k' := by
  induction d with
  | nil => rfl
  | cons kv rest ih =>
    rw [List.map_cons, dictGet, dictGet]
    by_cases hk : kv.1 = k
    · rw [if_pos hk, if_neg (show ¬(k, v).1 = k' from fun hkk => h hkk.symm),
        if_neg (show ¬kv.1 = k' from hk ▸ fun hkk => h hkk.symm)]
      exact ih
    · rw [if_neg hk]
      by_cases hk' : kv.1 = k'
      · rw [if_pos hk', if_pos hk']
      · rw [if_neg hk', if_neg hk']
        exact ih

theorem dictGet_dictSet_ne (d : Record) (k k' : String) (v : FieldValue)
    (h : k' ≠ k) : dictGet (dictSet d k v) k' = dictGet d k' := by
  rw [dictSet]
  by_cases ha : d.any (fun kv => decide (kv.1 = k)) = true
  · rw [if_pos ha]
    exact dictGet_map_set_ne d k k' v h
  · rw [if_neg ha]
    cases hd : dictGet d k' with
    | some w => exact dictGet_append_of_some _ _ _ _ hd
    | none =>
      rw [dictGet_append_of_none _ _ _ hd, dictGet,
        if_neg (show ¬(k, v).1 = k' from fun hkk => h hkk.symm)]
      rfl

theorem mem_keys_dictSet (d : Record) (k k' : String) (v : FieldValue) :
    k' ∈ keys (dictSet d k v) ↔ k' = k ∨ k' ∈ keys d := by
  rw [dictSet]
  by_cases ha : d.any (fun kv => decide (kv.1 = k)) = true
  · rw [if_pos ha, keys, List.map_map]
    simp only [keys, List.mem_map, Function.comp]
    constructor
    · rintro ⟨kv, hkv, hval⟩
      by_cases hk : kv.1 = k
      · rw [if_pos hk] at hval
        exact Or.inl hval.symm
      · rw [if_neg hk] at hval
        exact Or.inr ⟨kv, hkv, hval⟩
    · rintro (rfl | ⟨kv, hkv, hval⟩)
      · rcases List.any_eq_true.1 ha with ⟨kv, hkv, hk⟩
        exact ⟨kv, hkv, by rw [if_pos (by simpa using hk)]⟩
      · by_cases hk : kv.1 = k
        · exact ⟨kv, hkv, by rw [if_pos hk, ← hval, hk]⟩
        · exact ⟨kv, hkv, by rw [if_neg hk, hval]⟩
  · rw [if_neg ha, keys, List.map_append]
    simp only [List.mem_append]
    rw [or_comm]
    simp [keys]

theorem dictGet_eq_none_of_not_mem_keys (d : Record) (k : String)
    (h : k ∉ keys d) : dictGet d k = none := by
  induction d with
  | nil => rfl
  | cons kv rest ih =>
    simp only [keys, List.map_cons, List.mem_cons, not_or] at h
    rw [dictGet, if_neg (fun hk => h.1 hk.symm)]
    exact ih (by simpa [keys] using h.2)

theorem dictGet_pfadRecord (p : String) :
    dictGet (pfadRecord p) "Pfad" = some (.str p) := rfl

end PathToCsv

namespace PathToCsv

theorem dict_to_list_ok (field_names : List String) (r : Record)
    (h : ∀ kv ∈ r, kv.1 ∈ field_names) :
    dict_to_list field_names r
      = .ok (field_names.map (fun f => cellRender (dictGet r f))) := by
  rw [dict_to_list, if_neg]
  intro hany
  rcases List.any_eq_true.1 hany with ⟨kv, hkv, hd⟩
  exact (of_decide_eq_true hd) (h kv hkv)

theorem writeRows_ok (field_names : List String) (all_files : List Record)
    (h : ∀ r ∈ all_files, ∀ kv ∈ r, kv.1 ∈ field_names) :
    writeRows field_names all_files
      = .ok (all_files.map
          (fun r => field_names.map (fun f => cellRender (dictGet r f)))) := by
  induction all_files with
  | nil => rfl
  | cons r rs ih =>
    rw [writeRows, dict_to_list_ok field_names r (h r (List.mem_cons_self r rs)),
      ih (fun r2 hr2 => h r2 (List.mem_cons_of_mem r hr2)), List.map_cons]

/-- C9: when every record's keys are covered by `field_names`, `write_csv`
produces the header row `field_names` followed by one row per record in
order; each cell holds the record's value at that field (`dictGet r f`,
rendered), and a field absent from a record gives the empty cell. -/
theorem write_csv_spec (all_files : List Record) (field_names : List String)
    (h : ∀ r ∈ all_files, ∀ kv ∈ r, kv.1 ∈ field_names) :
    write_csv all_files field_names
      = .ok (field_names ::
          all_files.map
            (fun r => field_names.map (fun f => cellRender (dictGet r f))))
    ∧ (∀ r : Record, ∀ f, f ∉ keys r → cellRender (dictGet r f) = "")
    ∧ (∀ r : Record, ∀ f v, dictGet r f = some v
        → cellRender (dictGet r f) = renderValue v) := by
  refine ⟨?_, ?_, ?_⟩
  · rw [write_csv, writeRows_ok field_names all_files h]
  · intro r f hf
    rw [dictGet_eq_none_of_not_mem_keys r f hf]
    rfl
  · intro r f v hv
    rw [hv]
    rfl

/-- Witness for C9 at one record with a present field `"a"` and an absent
field `"b"`. -/
theorem write_csv_spec_witness :
    write_csv [[("Pfad", .str "/r/f"), ("a", .str "x")]] ["Pfad", "a", "b"]
      = .ok [["Pfad", "a", "b"], ["/r/f", "x", ""]] := by
  have h := (write_csv_spec [[("Pfad", .str "/r/f"), ("a", .str "x")]]
    ["Pfad", "a", "b"] (by decide)).1
  rw [h]
  rfl

end PathToCsv

namespace PathToCsv

/-! ## Epub metadata merging (C8) -/

/-- The field name a successfully parsed epub metadata key is stored under
(amended wording: `"toc"` goes to `"epub_chapters"`; any other key keeps its
name when it already contains the substring `"epub"`, otherwise it gets the
`"epub_"` prefix). -/
def epubFieldName (k : String) : String :=
  if k = "toc" then "epub_chapters"
  else if strContains k "epub" then k else "epub_" ++ k

/-- The value an epub metadata entry is stored as (`"toc"` becomes the list
of its entries' titles; any other key stores its raw value). -/
def epubFieldVal (kv : String × EpubVal) : FieldValue :=
  if kv.1 = "toc" then .list (tocTitles kv.2) else epubStoredVal kv.2

/-- C8 counterexample: the key `"subepub"` does not carry the `"epub_"`
prefix, and its value `"v"` is non-empty, yet the merge stores it under
`"subepub"` — not under `"epub_subepub"` as the claim's wording requires —
because the code tests `"epub" in pub_key` (substring), not the prefix. -/
theorem extract_epub_information_prefix_counterexample :
    (extract_epub_information (fun _ => .ok [("subepub", .plain (.str "v"))])
        "/r/x.epub" (pfadRecord "/r/x.epub") ExtractorState.init).1
      = [("Pfad", .str "/r/x.epub"), ("subepub", .str "v")]
    ∧ dictGet (extract_epub_information (fun _ => .ok [("subepub", .plain (.str "v"))])
        "/r/x.epub" (pfadRecord "/r/x.epub") ExtractorState.init).1 "epub_subepub"
      = none := by
  exact ⟨rfl, rfl⟩

/-- C8 (amended): on a successful metadata read, the merge is exactly a fold
of dict assignments over the truthy entries, storing each entry under
`epubFieldName` with value `epubFieldVal`: empty values are omitted, `"toc"`
becomes the title list under `"epub_chapters"`, and every other key gets the
`"epub_"` prefix unless it already contains the substring `"epub"`. -/
theorem extract_epub_information_amended
    (epubRead : String → Except String (List (String × EpubVal)))
    (file_path : String) (this_file : Record) (st : ExtractorState)
    (md : List (String × EpubVal)) (h : epubRead file_path = .ok md) :
    extract_epub_information epubRead file_path this_file st
      = ((md.filter (fun kv => truthy kv.2)).foldl
          (fun acc kv => dictSet acc (epubFieldName kv.1) (epubFieldVal kv))
          this_file, st) := by
  rw [extract_epub_information, h]
  clear h
  refine congrArg (fun r => (r, st)) ?_
  induction md generalizing this_file with
  | nil => rfl
  | cons kv rest ih =>
    rw [List.foldl_cons, List.filter_cons]
    by_cases ht : truthy kv.2 = true
    · rw [if_pos ht, if_pos ht, List.foldl_cons]
      by_cases htoc : kv.1 = "toc"
      · rw [if_pos htoc, ih]
        rw [epubFieldName, if_pos htoc, epubFieldVal, if_pos htoc]
      · rw [if_neg htoc, ih]
        rw [epubFieldName, if_neg htoc, epubFieldVal, if_neg htoc, epubStoredVal.eq_def]
    · rw [if_neg ht, if_neg (by simpa using ht), ih]

/-- Witness for C8's amended theorem at a concrete metadata mapping with a
title, a table of contents, a key already containing `"epub"`, an empty list
value and an empty string value. -/
theorem extract_epub_information_amended_witness :
    extract_epub_information
        (fun _ => .ok [("title", .plain (.str "T")), ("toc", .toc ["c1", "c2"]),
          ("epub_version", .plain (.str "3,0")), ("identifiers", .plain (.list [])),
          ("subtitle", .plain (.str ""))])
        "/r/b.epub" (pfadRecord "/r/b.epub") ExtractorState.init
      = (([("title", EpubVal.plain (.str "T")), ("toc", EpubVal.toc ["c1", "c2"]),
          ("epub_version", EpubVal.plain (.str "3,0")),
          ("identifiers", EpubVal.plain (.list [])),
          ("subtitle", EpubVal.plain (.str ""))].filter
            (fun kv => truthy kv.2)).foldl
          (fun acc kv => dictSet acc (epubFieldName kv.1) (epubFieldVal kv))
          (pfadRecord "/r/b.epub"), ExtractorState.init) :=
  extract_epub_information_amended _ _ _ _ _ rfl

end PathToCsv

namespace PathToCsv

/-! ## Error taxonomy (C3) -/

theorem transform_to_mb_error_valueError (s : String) (e : PyError)
    (h : transform_to_mb s = .error e) : ∃ m, e = .valueError m := by
  rw [transform_to_mb.eq_def] at h
  split at h
  · split at h
    · split at h
      · exact absurd h (by simp)
      · cases h
        exact ⟨_, rfl⟩
    · exact absurd h (by simp)
  · cases h
    exact ⟨_, rfl⟩
  · cases h
    exact ⟨_, rfl⟩
  · cases h
    exact ⟨_, rfl⟩

theorem extract_general_information_error_valueError
    (detail : ℕ → String) (this_file : Record) (cols : List (ℕ × String))
    (e : PyError)
    (h : extract_general_information detail this_file cols = .error e) :
    ∃ m, e = .valueError m := by
  induction cols generalizing this_file with
  | nil => exact absurd h (by rw [extract_general_information]; simp)
  | cons c cs ih =>
    rw [extract_general_information] at h
    by_cases hcv : detail c.1 = ""
    · rw [if_pos hcv] at h
      exact ih _ h
    · rw [if_neg hcv] at h
      by_cases h1 : c.1 = 1
      · rw [if_pos h1] at h
        rcases ht : transform_to_mb (detail c.1) with em | v
        · rw [ht] at h
          cases h
          exact transform_to_mb_error_valueError _ _ ht
        · rw [ht] at h
          exact ih _ h
      · rw [if_neg h1] at h
        exact ih _ h

theorem process_files_no_fileNotFound (env : Env) (dir_path : String)
    (columns : List (ℕ × String)) (names : List String) (acc : List Record)
    (st : ExtractorState) (m : String)
    (h : (process_files env dir_path columns names acc st).2
        = .error (.fileNotFound m)) : False := by
  induction names generalizing acc st with
  | nil => exact absurd h (by rw [process_files]; simp)
  | cons file_name rest ih =>
    rw [process_files] at h
    by_cases hd : env.isDir (joinPath dir_path file_name) = true
    · rw [if_pos hd] at h
      exact ih _ _ h
    · rw [if_neg hd] at h
      rcases he : extract_general_information (env.detail dir_path file_name)
          (pfadRecord (joinPath dir_path file_name)) columns with e | this_file
      · rw [he] at h
        simp only [] at h
        cases h
        rcases extract_general_information_error_valueError _ _ _ _ he with ⟨m2, hm2⟩
        exact PyError.noConfusion hm2
      · rw [he] at h
        exact ih _ _ h

/-- C3: `get_information` raises `FileNotFoundError` exactly when the path
does not exist or is not a directory; the check comes before any other work,
so in that case the returned state is the untouched input state (and no
records are produced, the error replacing the record list). -/
theorem get_information_not_found_spec (env : Env) (st : ExtractorState)
    (dir_path : String) :
    ((env.pathExists dir_path = false ∨ env.isDir dir_path = false) →
      get_information env st dir_path
        = (st, .error (.fileNotFound
            (if env.pathExists dir_path = false
             then "Could not find the given directory!"
             else "Path has to be for a directory!"))))
    ∧ (∀ m, (get_information env st dir_path).2 = .error (.fileNotFound m) →
        (env.pathExists dir_path = false ∨ env.isDir dir_path = false)) := by
  constructor
  · intro h
    by_cases hp : env.pathExists dir_path = false
    · rw [get_information, if_pos hp, if_pos hp]
    · have hd : env.isDir dir_path = false := h.resolve_left hp
      rw [get_information, if_neg hp, if_pos hd, if_neg hp]
  · intro m hm
    by_cases hp : env.pathExists dir_path = false
    · exact Or.inl hp
    · by_cases hd : env.isDir dir_path = false
      · exact Or.inr hd
      · rw [get_information, if_neg hp, if_neg hd] at hm
        exact absurd hm (fun hc => process_files_no_fileNotFound _ _ _ _ _ _ _ hc)

/-- An environment with no paths at all, for the C3 witness. -/
def emptyEnv : Env where
  pathExists := fun _ => false
  isDir := fun _ => false
  listdir := fun _ => []
  colName := fun _ _ => ""
  detail := fun _ _ _ => ""
  epubRead := fun _ => .error "no file"

/-- Witness for C3: extracting a missing path fails with `FileNotFoundError`
and leaves the state untouched. -/
theorem get_information_not_found_spec_witness :
    get_information emptyEnv ExtractorState.init "/missing"
      = (ExtractorState.init,
         .error (.fileNotFound "Could not find the given directory!")) := by
  have h := (get_information_not_found_spec emptyEnv ExtractorState.init
    "/missing").1 (Or.inl rfl)
  rw [h]
  rfl

end PathToCsv

namespace PathToCsv

/-! ## Shell columns (C7) -/

theorem extract_general_information_preserve
    (detail : ℕ → String) (cols : List (ℕ × String)) (rec rec' : Record)
    (k : String) (hk : ∀ c ∈ cols, c.2 ≠ k)
    (h : extract_general_information detail rec cols = .ok rec') :
    dictGet rec' k = dictGet rec k ∧ (k ∈ keys rec' ↔ k ∈ keys rec) := by
  induction cols generalizing rec with
  | nil =>
    rw [extract_general_information] at h
    cases h
    exact ⟨rfl, Iff.rfl⟩
  | cons c cs ih =>
    have hck : c.2 ≠ k := hk c (List.mem_cons_self c cs)
    have hks : ∀ c2 ∈ cs, c2.2 ≠ k := fun c2 hc2 => hk c2 (List.mem_cons_of_mem c hc2)
    rw [extract_general_information] at h
    by_cases hcv : detail c.1 = ""
    · rw [if_pos hcv] at h
      exact ih _ hks h
    · rw [if_neg hcv] at h
      by_cases h1 : c.1 = 1
      · rw [if_pos h1] at h
        rcases ht : transform_to_mb (detail c.1) with em | v
        · rw [ht] at h
          exact absurd h (by simp)
        · rw [ht] at h
          rcases ih _ hks h with ⟨hg, hm⟩
          refine ⟨?_, ?_⟩
          · rw [hg, dictGet_dictSet_ne _ _ _ _ (fun hkk => hck hkk.symm)]
          · rw [hm, mem_keys_dictSet]
            constructor
            · rintro (hkk | hkk)
              · exact absurd hkk.symm hck
              · exact hkk
            · exact Or.inr
      · rw [if_neg h1] at h
        rcases ih _ hks h with ⟨hg, hm⟩
        refine ⟨?_, ?_⟩
        · rw [hg, dictGet_dictSet_ne _ _ _ _ (fun hkk => hck hkk.symm)]
        · rw [hm, mem_keys_dictSet]
          constructor
          · rintro (hkk | hkk)
            · exact absurd hkk.symm hck
            · exact hkk
          · exact Or.inr

/-- General form of C7 over any start record not containing the queried
column name: the column's name is a key of the result exactly when its query
is non-empty, and the stored value is the queried value, routed through
`transform_to_mb` for column id 1. -/
theorem extract_general_information_col
    (detail : ℕ → String) (cols : List (ℕ × String)) (rec rec' : Record)
    (cn : ℕ) (col : String)
    (hmem : (cn, col) ∈ cols)
    (hnodup : (cols.map Prod.snd).Nodup)
    (hfresh : col ∉ keys rec)
    (h : extract_general_information detail rec cols = .ok rec') :
    (col ∈ keys rec' ↔ detail cn ≠ "")
    ∧ (detail cn ≠ "" → cn ≠ 1 → dictGet rec' col = some (.str (detail cn)))
    ∧ (detail cn ≠ "" → cn = 1 →
        ∃ s, transform_to_mb (detail cn) = .ok s
          ∧ dictGet rec' col = some (.str s)) := by
  induction cols generalizing rec rec' with
  | nil => exact absurd hmem (List.not_mem_nil _)
  | cons c cs ih =>
    rw [extract_general_information] at h
    rcases List.mem_cons.1 hmem with hhead | htail
    · -- the queried column is the head column
      have hcs : col ∉ cs.map Prod.snd := by
        rw [← hhead] at hnodup
        exact (List.nodup_cons.1 (by simpa using hnodup)).1
      have hcol : ∀ c2 ∈ cs, c2.2 ≠ col := by
        intro c2 hc2 hc2e
        exact hcs (hc2e ▸ List.mem_map.2 ⟨c2, hc2, rfl⟩)
      rw [← hhead] at h
      simp only [] at h
      by_cases hcv : detail cn = ""
      · rw [if_pos hcv] at h
        rcases extract_general_information_preserve _ _ _ _ _ hcol h with ⟨_, hm⟩
        refine ⟨by rw [hm]; simp [hfresh, hcv], fun hne => absurd hcv hne,
          fun hne => absurd hcv hne⟩
      · rw [if_neg hcv] at h
        by_cases h1 : cn = 1
        · rw [if_pos h1] at h
          rcases ht : transform_to_mb (detail cn) with em | v
          · rw [ht] at h
            exact absurd h (by simp)
          · rw [ht] at h
            rcases extract_general_information_preserve _ _ _ _ _ hcol h with ⟨hg, hm⟩
            refine ⟨?_, fun _ hn1 => absurd h1 hn1, fun _ _ => ⟨v, rfl, ?_⟩⟩
            · rw [hm, mem_keys_dictSet]
              simp [hcv]
            · rw [hg, dictGet_dictSet_self]
        · rw [if_neg h1] at h
          rcases extract_general_information_preserve _ _ _ _ _ hcol h with ⟨hg, hm⟩
          refine ⟨?_, fun _ _ => ?_, fun _ h1e => absurd h1e h1⟩
          · rw [hm, mem_keys_dictSet]
            simp [hcv]
          · rw [hg, dictGet_dictSet_self]
    · -- the queried column sits in the tail
      have hnd : (cs.map Prod.snd).Nodup := (List.nodup_cons.1 (by simpa using hnodup)).2
      have hhne : c.2 ∉ cs.map Prod.snd := (List.nodup_cons.1 (by simpa using hnodup)).1
      have hcne : col ≠ c.2 := by
        intro he
        exact hhne (he ▸ List.mem_map.2 ⟨(cn, col), htail, rfl⟩)
      by_cases hcv : detail c.1 = ""
      · rw [if_pos hcv] at h
        exact ih _ _ htail hnd hfresh h
      · rw [if_neg hcv] at h
        have hfresh2 : ∀ v : FieldValue, col ∉ keys (dictSet rec c.2 v) := by
          intro v hc
          rcases (mem_keys_dictSet rec c.2 col v).1 hc with he | he
          · exact hcne he
          · exact hfresh he
        by_cases h1 : c.1 = 1
        · rw [if_pos h1] at h
          rcases ht : transform_to_mb (detail c.1) with em | v
          · rw [ht] at h
            exact absurd h (by simp)
          · rw [ht] at h
            exact ih _ _ htail hnd (hfresh2 _) h
        · rw [if_neg h1] at h
          exact ih _ _ htail hnd (hfresh2 _) h

/-- C7: for a record built by `extract_general_information` (seeded with the
`"Pfad"` key) over columns with distinct display names none of which is
`"Pfad"` (the code's `skip_set` explicitly drops the duplicated columns), a
column's name is a key of the resulting record exactly when the shell query
for that column is non-empty; when it is non-empty, the stored value equals
the queried value — except for column id 1 ("size"), whose queried value is
passed through `transform_to_mb` before being stored. -/
theorem extract_general_information_spec
    (detail : ℕ → String) (cols : List (ℕ × String)) (p : String)
    (rec' : Record) (cn : ℕ) (col : String)
    (hmem : (cn, col) ∈ cols)
    (hnodup : (cols.map Prod.snd).Nodup)
    (hpfad : "Pfad" ∉ cols.map Prod.snd)
    (h : extract_general_information detail (pfadRecord p) cols = .ok rec') :
    (col ∈ keys rec' ↔ detail cn ≠ "")
    ∧ (detail cn ≠ "" → cn ≠ 1 → dictGet rec' col = some (.str (detail cn)))
    ∧ (detail cn ≠ "" → cn = 1 →
        ∃ s, transform_to_mb (detail cn) = .ok s
          ∧ dictGet rec' col = some (.str s)) := by
  have hfresh : col ∉ keys (pfadRecord p) := by
    intro hc
    apply hpfad
    have hcp : col = "Pfad" := by
      simpa [keys, pfadRecord] using hc
    rw [← hcp]
    exact List.mem_map.2 ⟨(cn, col), hmem, rfl⟩
  exact extract_general_information_col detail cols (pfadRecord p) rec' cn col
    hmem hnodup hfresh h

end PathToCsv

namespace PathToCsv

/-! ## Records per directory child (C6) -/

theorem epub_underscore_ne_pfad (k : String) : "epub_" ++ k ≠ "Pfad" := by
  intro h
  have h2 := congrArg String.length h
  rw [String.length_append] at h2
  have h5 : "epub_".length = 5 := rfl
  have h4 : "Pfad".length = 4 := rfl
  omega

theorem epub_merge_preserves_pfad
    (epubRead : String → Except String (List (String × EpubVal)))
    (path : String) (rec : Record) (st : ExtractorState) :
    dictGet (extract_epub_information epubRead path rec st).1 "Pfad"
      = dictGet rec "Pfad" := by
  rw [extract_epub_information]
  rcases epubRead path with e | md
  · rfl
  · simp only []
    induction md generalizing rec with
    | nil => rfl
    | cons kv rest ih =>
      rw [List.foldl_cons]
      rw [ih]
      by_cases ht : truthy kv.2 = true
      · rw [if_pos ht]
        by_cases htoc : kv.1 = "toc"
        · rw [if_pos htoc, dictGet_dictSet_ne _ _ _ _ (by decide)]
        · rw [if_neg htoc]
          by_cases hc : strContains kv.1 "epub" = true
          · rw [if_pos hc, dictGet_dictSet_ne]
            intro hp
            rw [← hp] at hc
            exact absurd hc (by decide)
          · rw [if_neg hc, dictGet_dictSet_ne]
            exact fun hp => epub_underscore_ne_pfad kv.1 hp.symm
      · rw [if_neg ht]

theorem process_files_pfad (env : Env) (dir_path : String)
    (columns : List (ℕ × String)) (hcol : ∀ c ∈ columns, c.2 ≠ "Pfad")
    (names : List String) :
    ∀ (acc : List Record) (st : ExtractorState) (records : List Record),
    (process_files env dir_path columns names acc st).2 = .ok records →
    records.map (fun r => dictGet r "Pfad")
      = acc.map (fun r => dictGet r "Pfad")
        ++ ((names.filter (fun n => !env.isDir (joinPath dir_path n))).map
            (fun n => some (FieldValue.str (joinPath dir_path n)))) := by
  induction names with
  | nil =>
    intro acc st records h
    rw [process_files] at h
    cases h
    simp
  | cons file_name rest ih =>
    intro acc st records h
    rw [process_files] at h
    by_cases hd : env.isDir (joinPath dir_path file_name) = true
    · rw [if_pos hd] at h
      rw [ih acc st records h, List.filter_cons]
      simp [hd]
    · rw [if_neg hd] at h
      rcases he : extract_general_information (env.detail dir_path file_name)
          (pfadRecord (joinPath dir_path file_name)) columns with e | this_file
      · rw [he] at h
        exact absurd h (by simp)
      · rw [he] at h
        simp only [] at h
        have hbase : dictGet this_file "Pfad"
            = some (FieldValue.str (joinPath dir_path file_name)) := by
          rw [(extract_general_information_preserve _ _ _ _ _ hcol he).1,
            dictGet_pfadRecord]
        by_cases hep : strContains (splitext_ext file_name) "epub" = true
        · rw [if_pos hep] at h
          rw [ih _ _ records h, List.map_append, List.filter_cons]
          have hpf := (epub_merge_preserves_pfad env.epubRead
            (joinPath dir_path file_name) this_file
            { st with n_files := st.n_files + 1 }).trans hbase
          simp [hd, hpf, List.append_assoc]
        · rw [if_neg hep] at h
          rw [ih _ _ records h, List.map_append, List.filter_cons]
          simp [hd, hbase, List.append_assoc]

theorem process_files_all_dirs (env : Env) (dir_path : String)
    (columns : List (ℕ × String)) (names : List String) (acc : List Record)
    (st : ExtractorState)
    (h : ∀ n ∈ names, env.isDir (joinPath dir_path n) = true) :
    process_files env dir_path columns names acc st = (st, .ok acc) := by
  induction names with
  | nil => rfl
  | cons file_name rest ih =>
    rw [process_files, if_pos (h file_name (List.mem_cons_self _ _))]
    exact ih (fun n hn => h n (List.mem_cons_of_mem _ hn))

theorem mem_get_columns_to_parse (colName : ℕ → String) (c : ℕ × String)
    (h : c ∈ get_columns_to_parse colName) : c.2 = colName c.1 := by
  rw [get_columns_to_parse] at h
  rcases List.mem_map.1 h with ⟨n, _, hn⟩
  rw [← hn]

/-- C6: for an existing directory whose shell column names never collide with
`"Pfad"`, a successful `get_information` returns exactly one record per
non-directory direct child (directories are skipped, no recursion), each
record holding the child's full path under `"Pfad"`; and when every child is
a directory (in particular for an empty directory) the result is the empty
list, not an error. -/
theorem get_information_records_spec (env : Env) (st : ExtractorState)
    (dir_path : String) (records : List Record)
    (hex : env.pathExists dir_path = true)
    (hdir : env.isDir dir_path = true)
    (hcol : ∀ n, env.colName dir_path n ≠ "Pfad")
    (hok : (get_information env st dir_path).2 = .ok records) :
    records.map (fun r => dictGet r "Pfad")
      = ((env.listdir dir_path).filter
          (fun n => !env.isDir (joinPath dir_path n))).map
          (fun n => some (FieldValue.str (joinPath dir_path n)))
    ∧ records.length
        = ((env.listdir dir_path).filter
            (fun n => !env.isDir (joinPath dir_path n))).length
    ∧ ((∀ n ∈ env.listdir dir_path, env.isDir (joinPath dir_path n) = true) →
        (get_information env st dir_path).2 = .ok []) := by
  have hex2 : ¬env.pathExists dir_path = false := by rw [hex]; simp
  have hdir2 : ¬env.isDir dir_path = false := by rw [hdir]; simp
  have hcols : ∀ c ∈ get_columns_to_parse (env.colName dir_path), c.2 ≠ "Pfad" := by
    intro c hc
    rw [mem_get_columns_to_parse _ _ hc]
    exact hcol c.1
  rw [get_information, if_neg hex2, if_neg hdir2] at hok
  have hmain := process_files_pfad env dir_path _ hcols (env.listdir dir_path)
    [] _ records hok
  rw [List.map_nil, List.nil_append] at hmain
  refine ⟨hmain, ?_, ?_⟩
  · have hlen := congrArg List.length hmain
    rwa [List.length_map, List.length_map] at hlen
  · intro hall
    rw [get_information, if_neg hex2, if_neg hdir2,
      process_files_all_dirs _ _ _ _ _ _ hall]

end PathToCsv

namespace PathToCsv

/-! ## Epub failure tolerance (C4) -/

/-- C4: an e-book file whose metadata read raises does not abort extraction:
for a directory holding exactly that file, `get_information` still returns
the file's shell-metadata record, and `failed_ebooks` grows by exactly the
file's path (one entry). -/
theorem get_information_epub_failure_spec
    (env : Env) (st : ExtractorState) (dir_path file_name : String)
    (rec : Record) (emsg : String)
    (hex : env.pathExists dir_path = true)
    (hdir : env.isDir dir_path = true)
    (hls : env.listdir dir_path = [file_name])
    (hnd : env.isDir (joinPath dir_path file_name) = false)
    (hepub : strContains (splitext_ext file_name) "epub" = true)
    (hegi : extract_general_information (env.detail dir_path file_name)
        (pfadRecord (joinPath dir_path file_name))
        (get_columns_to_parse (env.colName dir_path)) = .ok rec)
    (herr : env.epubRead (joinPath dir_path file_name) = .error emsg) :
    get_information env st dir_path
      = ({ st with
            n_files := st.n_files + 1,
            n_dirs := st.n_dirs + 1,
            failed_ebooks := st.failed_ebooks ++ [joinPath dir_path file_name] },
         .ok [rec])
    ∧ (get_information env st dir_path).1.failed_ebooks.length
        = st.failed_ebooks.length + 1 := by
  have hex2 : ¬env.pathExists dir_path = false := by rw [hex]; simp
  have hdir2 : ¬env.isDir dir_path = false := by rw [hdir]; simp
  have heq : get_information env st dir_path
      = ({ st with
            n_files := st.n_files + 1,
            n_dirs := st.n_dirs + 1,
            failed_ebooks := st.failed_ebooks ++ [joinPath dir_path file_name] },
         .ok [rec]) := by
    rw [get_information, if_neg hex2, if_neg hdir2, hls, process_files,
      if_neg (by rw [hnd]; simp), hegi]
    simp only []
    rw [if_pos hepub, extract_epub_information, herr]
    simp only []
    rw [process_files, List.nil_append]
  refine ⟨heq, ?_⟩
  rw [heq]
  simp

end PathToCsv

namespace PathToCsv

/-- Witness for C7 at the size column `(1, "Groesse")` of a concrete query
function: the queried `"2,5 KB"` is stored through `transform_to_mb`. -/
theorem extract_general_information_spec_witness :
    ∃ s, transform_to_mb
          ((fun n => if n = 0 then "hello" else if n = 1 then "2,5 KB" else "") 1)
        = Except.ok s
      ∧ dictGet [("Pfad", FieldValue.str "/r/f.txt"), ("Name", FieldValue.str "hello"),
          ("Groesse", FieldValue.str "0,01 MB")] "Groesse" = some (.str s) :=
  (extract_general_information_spec
      (fun n => if n = 0 then "hello" else if n = 1 then "2,5 KB" else "")
      [(0, "Name"), (1, "Groesse"), (2, "Leer")] "/r/f.txt"
      [("Pfad", .str "/r/f.txt"), ("Name", .str "hello"), ("Groesse", .str "0,01 MB")]
      1 "Groesse" (by decide) (by decide) (by decide)
      (by with_unfolding_all rfl)).2.2 (by decide) rfl

/-- A concrete environment for the C6 witness: `/r` holds one plain file and
one subdirectory. -/
def envC6 : Env where
  pathExists := fun p => decide (p = "/r" ∨ p = "/r/f.txt" ∨ p = "/r/sub")
  isDir := fun p => decide (p = "/r" ∨ p = "/r/sub")
  listdir := fun p => if p = "/r" then ["f.txt", "sub"] else []
  colName := fun _ n => if n = 0 then "Name" else if n = 1 then "Size" else ""
  detail := fun _ f n => if n = 0 then f else if n = 1 then "2,5 KB" else ""
  epubRead := fun _ => .error "no epub"

/-- Witness for C6: extracting `/r` in `envC6` yields one record, for the one
non-directory child, with its full path under `"Pfad"`. -/
theorem get_information_records_spec_witness :
    ([[("Pfad", FieldValue.str "/r/f.txt"), ("Name", FieldValue.str "f.txt"),
        ("Size", FieldValue.str "0,01 MB")]] : List Record).map
        (fun r => dictGet r "Pfad")
      = ((envC6.listdir "/r").filter
          (fun n => !envC6.isDir (joinPath "/r" n))).map
          (fun n => some (FieldValue.str (joinPath "/r" n))) :=
  (get_information_records_spec envC6 ExtractorState.init "/r"
      [[("Pfad", FieldValue.str "/r/f.txt"), ("Name", FieldValue.str "f.txt"),
        ("Size", FieldValue.str "0,01 MB")]]
      (by decide) (by decide)
      (by
        intro n
        by_cases h0 : n = 0
        · simp [envC6, h0]
        · by_cases h1 : n = 1
          · simp [envC6, h0, h1]
          · simp [envC6, h0, h1])
      (by with_unfolding_all rfl)).1

/-- A concrete environment for the C4 witness: `/r` holds one epub file whose
metadata read fails; all shell queries are empty. -/
def envC4 : Env where
  pathExists := fun p => decide (p = "/r" ∨ p = "/r/b.epub")
  isDir := fun p => decide (p = "/r")
  listdir := fun p => if p = "/r" then ["b.epub"] else []
  colName := fun _ _ => ""
  detail := fun _ _ _ => ""
  epubRead := fun _ => .error "malformed epub"

/-- Witness for C4: the failing epub still yields its `"Pfad"` record and is
appended to `failed_ebooks`. -/
theorem get_information_epub_failure_spec_witness :
    get_information envC4 ExtractorState.init "/r"
      = ({ n_files := 1, n_dirs := 1, failed_ebooks := ["/r/b.epub"] },
         .ok [pfadRecord "/r/b.epub"]) := by
  have h := (get_information_epub_failure_spec envC4 ExtractorState.init
    "/r" "b.epub" (pfadRecord "/r/b.epub") "malformed epub"
    (by decide) (by decide) rfl (by decide) (by decide)
    (by with_unfolding_all rfl) rfl).1
  rw [h]
  rfl

end PathToCsv

namespace PathToCsv

/-- Witness for the unrecognized-unit pass-through of
`transform_to_mb_exact_examples` at `"156 PB"`. -/
theorem transform_to_mb_exact_examples_witness :
    transform_to_mb "156 PB" = Except.ok "156 PB" :=
  transform_to_mb_exact_examples.2.2.2.2.2.1 "156 PB" "156" "PB"
    (by with_unfolding_all rfl) (by with_unfolding_all rfl)

end PathToCsv
